import Mathlib

/-!
Shallow embedding of the core of `generate_mcserver` (a Rust CLI that
provisions Minecraft server installations) together with proofs about it.

Each Lean definition mirrors one Rust item of the repository:

* `Hashing.*`       — `src/hashing.rs` (hex digest (de)serialization)
* `JavaVersion.*`   — `src/java.rs` (version grammar, ordering, formatting)
* `Acquisition.*`   — `src/ioutil.rs` and the older copy inlined in
                      `src/main.rs` (ETag-conditional fetch, verified
                      large-file download), with the filesystem and the
                      network modelled as explicit state / oracles
* `Log4j.*`         — `src/mod_loader/vanilla.rs` (date-bucketed Log4Shell
                      mitigation) and the run-script assembly around it
* `JavaSelect.*`    — the candidate sort in `src/commands/new.rs`
* `Modrinth.*`      — `src/mod_provider/modrinth.rs` (conflict / up-to-date
                      checks of `add_mod`) and the wrapper in
                      `src/commands/add.rs`

Bytes are modelled as `Nat` (values < 256 where it matters), strings as
`List Char` or `String`, machine integers as `Nat` with explicit bounds,
timestamps as `Int` Unix seconds, and fallible Rust functions as `Except`.
-/

namespace Hashing

/-- A decoding error of a hex digest string, mirroring serde's
`Error::invalid_length` / `Error::invalid_value` as raised in
`src/hashing.rs`. -/
inductive HexError where
  | invalidLength (got : Nat) (expected : Nat)
  | invalidValue (c : Char)
deriving DecidableEq

/-- `char::to_digit(16)` from Rust: the value of a hex digit, accepting
both lowercase and uppercase letters. -/
def digitValue (c : Char) : Option Nat :=
  if '0' ≤ c ∧ c ≤ '9' then some (c.toNat - '0'.toNat)
  else if 'a' ≤ c ∧ c ≤ 'f' then some (c.toNat - 'a'.toNat + 10)
  else if 'A' ≤ c ∧ c ≤ 'F' then some (c.toNat - 'A'.toNat + 10)
  else none

/-- `parse_hex_string` from `src/hashing.rs`: decode the chunks of two hex
digits into bytes, reporting the first character that is not a hex digit.
Like `chunks_exact(2)`, a trailing lone character is ignored (the caller
has already checked the length). -/
def parseHexString : List Char → Except HexError (List Nat)
  | c1 :: c2 :: rest =>
    match digitValue c1 with
    | none => .error (.invalidValue c1)
    | some d1 =>
      match digitValue c2 with
      | none => .error (.invalidValue c2)
      | some d2 =>
        match parseHexString rest with
        | .error e => .error e
        | .ok tail => .ok ((16 * d1 + d2) :: tail)
  | _ => .ok []

/-- `char::from_digit(d, 16)` as used by `to_hex_string`: lowercase hex
digit characters. -/
def hexDigitChar (d : Nat) : Char :=
  if d < 10 then Char.ofNat ('0'.toNat + d) else Char.ofNat ('a'.toNat + (d - 10))

/-- `to_hex_string` from `src/hashing.rs`: each byte becomes its high
nibble then its low nibble, in lowercase. -/
def toHexString : List Nat → List Char
  | [] => []
  | b :: rest => hexDigitChar (b / 16) :: hexDigitChar (b % 16) :: toHexString rest

/-- `<HexString<N> as Deserialize>::deserialize` from `src/hashing.rs`:
the string must have exactly `N * 2` characters, then it is decoded
pairwise. -/
def hexStringDeserialize (N : Nat) (s : List Char) : Except HexError (List Nat) :=
  if s.length ≠ N * 2 then .error (.invalidLength s.length (N * 2))
  else parseHexString s

/-- The sixteen characters that `to_hex_string` can emit. -/
def lowerHexDigits : List Char := "0123456789abcdef".toList

theorem lowerHexDigits_spec :
    ∀ c ∈ lowerHexDigits,
      (digitValue c).isSome ∧ (digitValue c).getD 0 < 16 ∧
        hexDigitChar ((digitValue c).getD 0) = c := by decide

theorem parseHexString_lower :
    ∀ (s : List Char), s.length % 2 = 0 → (∀ c ∈ s, c ∈ lowerHexDigits) →
      ∃ bs, parseHexString s = .ok bs ∧ toHexString bs = s
  | [], _, _ => ⟨[], rfl, rfl⟩
  | [_], h, _ => by simp at h
  | c1 :: c2 :: rest, h, hmem => by
    have h1 := lowerHexDigits_spec c1 (hmem c1 (by simp))
    have h2 := lowerHexDigits_spec c2 (hmem c2 (by simp))
    obtain ⟨d1, hd1⟩ := Option.isSome_iff_exists.mp h1.1
    obtain ⟨d2, hd2⟩ := Option.isSome_iff_exists.mp h2.1
    rw [hd1] at h1
    rw [hd2] at h2
    simp only [Option.getD_some] at h1 h2
    have hrest : rest.length % 2 = 0 := by
      simp only [List.length_cons] at h
      omega
    obtain ⟨bs, hbs, hhex⟩ := parseHexString_lower rest hrest
      (fun c hc => hmem c (by simp [hc]))
    refine ⟨(16 * d1 + d2) :: bs, ?_, ?_⟩
    · simp [parseHexString, hd1, hd2, hbs]
    · have hdiv : (16 * d1 + d2) / 16 = d1 := by
        rw [Nat.mul_add_div (by norm_num), Nat.div_eq_of_lt h2.2.1, Nat.add_zero]
      have hmod : (16 * d1 + d2) % 16 = d2 := by
        rw [Nat.mul_add_mod, Nat.mod_eq_of_lt h2.2.1]
      simp [toHexString, hdiv, hmod, h1.2.2, h2.2.2, hhex]

theorem parseHexString_badChar :
    ∀ (s : List Char), s.length % 2 = 0 → (∃ c ∈ s, digitValue c = none) →
      ∃ c, parseHexString s = .error (.invalidValue c) ∧ digitValue c = none
  | [], _, h => by simp at h
  | [_], hlen, _ => by simp at hlen
  | c1 :: c2 :: rest, hlen, h => by
    by_cases hd1 : digitValue c1 = none
    · exact ⟨c1, by simp [parseHexString, hd1], hd1⟩
    · obtain ⟨e1, he1⟩ := Option.ne_none_iff_exists'.mp hd1
      by_cases hd2 : digitValue c2 = none
      · exact ⟨c2, by simp [parseHexString, he1, hd2], hd2⟩
      · obtain ⟨e2, he2⟩ := Option.ne_none_iff_exists'.mp hd2
        obtain ⟨c, hc, hnone⟩ := h
        have hcrest : c ∈ rest := by
          simp only [List.mem_cons] at hc
          rcases hc with hc | hc | hc
          · exact absurd hnone (hc ▸ hd1)
          · exact absurd hnone (hc ▸ hd2)
          · exact hc
        have hrest : rest.length % 2 = 0 := by
          simp only [List.length_cons] at hlen
          omega
        obtain ⟨c', herr, hnone'⟩ := parseHexString_badChar rest hrest ⟨c, hcrest, hnone⟩
        exact ⟨c', by simp [parseHexString, he1, he2, herr], hnone'⟩

end Hashing

namespace Hashing

/-- C6 counterexample: `"AB"` has even length and consists of hex digits
accepted by `char::to_digit(16)`, yet deserializing and re-serializing it
yields `"ab"`, not `"AB"`: the round trip is not the identity on it. -/
theorem hex_roundtrip_uppercase_counterexample :
    hexStringDeserialize 1 ['A', 'B'] = .ok [171] ∧
      toHexString [171] = ['a', 'b'] ∧ toHexString [171] ≠ ['A', 'B'] :=
  ⟨rfl, by decide, by decide⟩

/-- C6 (amended): for an even-length string of *lowercase* hex digits,
re-serializing the parsed bytes reproduces the string exactly; an input of
odd length fails with a length error; an input of the right length that
contains a character that is not a hex digit (in either case) fails with a
value error naming such a character. -/
theorem hex_string_roundtrip (N : Nat) (s : List Char) :
    (s.length = N * 2 → (∀ c ∈ s, c ∈ lowerHexDigits) →
      ∃ bs, hexStringDeserialize N s = .ok bs ∧ toHexString bs = s) ∧
    (s.length % 2 = 1 →
      hexStringDeserialize N s = .error (.invalidLength s.length (N * 2))) ∧
    (s.length = N * 2 → (∃ c ∈ s, digitValue c = none) →
      ∃ c, hexStringDeserialize N s = .error (.invalidValue c) ∧
        digitValue c = none) := by
  refine ⟨?_, ?_, ?_⟩
  · intro hlen hmem
    have heven : s.length % 2 = 0 := by omega
    obtain ⟨bs, hbs, hhex⟩ := parseHexString_lower s heven hmem
    exact ⟨bs, by simp [hexStringDeserialize, hlen, hbs], hhex⟩
  · intro hodd
    have hne : s.length ≠ N * 2 := by omega
    simp [hexStringDeserialize, hne]
  · intro hlen hbad
    have heven : s.length % 2 = 0 := by omega
    obtain ⟨c, herr, hnone⟩ := parseHexString_badChar s heven hbad
    exact ⟨c, by simp [hexStringDeserialize, hlen, herr], hnone⟩

/-- Witness for `hex_string_roundtrip` at concrete inputs. -/
theorem hex_string_roundtrip_witness :
    (∃ bs, hexStringDeserialize 1 ['a', 'b'] = .ok bs ∧
      toHexString bs = ['a', 'b']) ∧
    hexStringDeserialize 1 ['a'] = .error (.invalidLength 1 2) ∧
    (∃ c, hexStringDeserialize 1 ['g', 'h'] = .error (.invalidValue c) ∧
      digitValue c = none) :=
  ⟨(hex_string_roundtrip 1 ['a', 'b']).1 (by decide) (by decide),
   (hex_string_roundtrip 1 ['a']).2.1 (by decide),
   (hex_string_roundtrip 1 ['g', 'h']).2.2 (by decide)
     ⟨'g', by decide, by decide⟩⟩

end Hashing

namespace JavaVersion

/-- `ParsedJavaVersion` from `src/java.rs`. -/
structure ParsedJavaVersion where
  major : Nat
  minor : Nat
  security : Nat
  prerelease : List Char
deriving DecidableEq

/-- Numeric value of an ASCII decimal digit character. -/
def charVal (c : Char) : Nat := c.toNat - '0'.toNat

/-- Value of a run of decimal digit characters, most significant first. -/
def digitsVal (ds : List Char) : Nat := ds.foldl (fun acc c => 10 * acc + charVal c) 0

/-- `str::parse::<u32>` on a run of ASCII digits: fails on the empty run
and on overflow past `u32::MAX`, otherwise yields the decimal value. -/
def parseU32 (ds : List Char) : Option Nat :=
  if ds = [] then none
  else if digitsVal ds < 2 ^ 32 then some (digitsVal ds) else none

/-- One optional numeric component of `ParsedJavaVersion::parse`
(`src/java.rs`): if the remaining input starts with `sep`, the digit run
after it must parse as a `u32`; otherwise the component defaults to `0`
and the input is left untouched. -/
def parseOptNum (sep : Char) (rest : List Char) : Except Unit (Nat × List Char) :=
  match rest with
  | c :: tail =>
    if c = sep then
      match parseU32 (tail.takeWhile Char.isDigit) with
      | none => .error ()
      | some n => .ok (n, tail.dropWhile Char.isDigit)
    else .ok (0, rest)
  | [] => .ok (0, [])

/-- The optional `-<prerelease>` component: if the remaining input starts
with `-`, the prerelease is the following run of ASCII alphanumeric
characters (possibly empty). -/
def parsePre (rest : List Char) : List Char × List Char :=
  match rest with
  | '-' :: tail => (tail.takeWhile Char.isAlphanum, tail.dropWhile Char.isAlphanum)
  | _ => ([], rest)

/-- `parse_inner` from `ParsedJavaVersion::parse` (`src/java.rs`): a
mandatory major digit run, an optional `.`-separated minor, an optional
`securityChar`-separated security, an optional `-` prerelease, and no
trailing characters. -/
def parseInner (s : List Char) (securityChar : Char) : Except Unit ParsedJavaVersion :=
  match parseU32 (s.takeWhile Char.isDigit) with
  | none => .error ()
  | some major =>
    match parseOptNum '.' (s.dropWhile Char.isDigit) with
    | .error e => .error e
    | .ok (minor, rest1) =>
      match parseOptNum securityChar rest1 with
      | .error e => .error e
      | .ok (security, rest2) =>
        let (pre, rest3) := parsePre rest2
        if rest3 = [] then .ok ⟨major, minor, security, pre⟩ else .error ()

/-- `ParsedJavaVersion::parse`: the legacy grammar (security separated by
`_`) is selected by a `1.` prefix, otherwise the modern grammar (security
separated by `.`) applies. -/
def parse (s : List Char) : Except Unit ParsedJavaVersion :=
  if s.take 2 = ['1', '.'] then parseInner (s.drop 2) '_' else parseInner s '.'

/-- An ASCII decimal digit character. -/
def decDigitChar (d : Nat) : Char := Char.ofNat ('0'.toNat + d)

/-- The decimal representation of a natural number, as `Display` for
`u32` prints it. -/
def natToChars (n : Nat) : List Char :=
  if n < 10 then [decDigitChar n]
  else natToChars (n / 10) ++ [decDigitChar (n % 10)]
decreasing_by exact Nat.div_lt_self (by omega) (by omega)

/-- `Display for ParsedJavaVersion` (`src/java.rs`): the legacy form is
chosen exactly when `major <= 8`; the minor component is printed only
when some later component is non-trivial, likewise the security
component, and the prerelease only when non-empty. -/
def format (v : ParsedJavaVersion) : List Char :=
  let old := v.major ≤ 8
  (if old then ['1', '.'] else []) ++ natToChars v.major ++
    (if v.minor ≠ 0 ∨ v.security ≠ 0 ∨ v.prerelease ≠ [] then
      '.' :: natToChars v.minor ++
        (if v.security ≠ 0 ∨ v.prerelease ≠ [] then
          (if old then '_' else '.') :: natToChars v.security ++
            (if v.prerelease ≠ [] then '-' :: v.prerelease else [])
        else [])
    else [])

/-- `Ord for ParsedJavaVersion` (`src/java.rs`): lexicographic on
`(major, minor, security)`; the prerelease is not compared. -/
def versionCompare (a b : ParsedJavaVersion) : Ordering :=
  let c := compare a.major b.major
  if c ≠ .eq then c else
  let c := compare a.minor b.minor
  if c ≠ .eq then c else
  compare a.security b.security

end JavaVersion

namespace JavaVersion

theorem decDigitChar_spec :
    ∀ d < 10, charVal (decDigitChar d) = d ∧ (decDigitChar d).isDigit = true := by
  decide

theorem natToChars_ne_nil (n : Nat) : natToChars n ≠ [] := by
  rw [natToChars]
  split <;> simp

theorem natToChars_digits (n : Nat) : ∀ c ∈ natToChars n, c.isDigit = true := by
  induction n using natToChars.induct with
  | case1 n h =>
    rw [natToChars, if_pos h]
    simpa using (decDigitChar_spec n h).2
  | case2 n h ih =>
    rw [natToChars, if_neg h]
    intro c hc
    rcases List.mem_append.mp hc with hc | hc
    · exact ih c hc
    · simp only [List.mem_singleton] at hc
      exact hc ▸ (decDigitChar_spec (n % 10) (Nat.mod_lt n (by omega))).2

theorem digitsVal_natToChars (n : Nat) : digitsVal (natToChars n) = n := by
  induction n using natToChars.induct with
  | case1 n h =>
    rw [natToChars, if_pos h]
    simp [digitsVal, (decDigitChar_spec n h).1]
  | case2 n h ih =>
    rw [natToChars, if_neg h]
    have : digitsVal (natToChars (n / 10) ++ [decDigitChar (n % 10)]) =
        10 * digitsVal (natToChars (n / 10)) + charVal (decDigitChar (n % 10)) := by
      simp [digitsVal, List.foldl_append]
    rw [this, ih, (decDigitChar_spec (n % 10) (Nat.mod_lt n (by omega))).1]
    omega

theorem parseU32_natToChars (n : Nat) (h : n < 2 ^ 32) :
    parseU32 (natToChars n) = some n := by
  rw [parseU32, if_neg (natToChars_ne_nil n), digitsVal_natToChars, if_pos h]

theorem takeWhile_app_of_all {p : Char → Bool} :
    ∀ (l₁ l₂ : List Char), (∀ c ∈ l₁, p c = true) →
      (l₁ ++ l₂).takeWhile p = l₁ ++ l₂.takeWhile p
  | [], _, _ => by simp
  | c :: l₁, l₂, h => by
    have hc : p c = true := h c (by simp)
    simp only [List.cons_append, List.takeWhile_cons, hc]
    simp [takeWhile_app_of_all l₁ l₂ (fun c hc => h c (by simp [hc]))]

theorem dropWhile_app_of_all {p : Char → Bool} :
    ∀ (l₁ l₂ : List Char), (∀ c ∈ l₁, p c = true) →
      (l₁ ++ l₂).dropWhile p = l₂.dropWhile p
  | [], _, _ => by simp
  | c :: l₁, l₂, h => by
    have hc : p c = true := h c (by simp)
    simp only [List.cons_append, List.dropWhile_cons, hc]
    simp [dropWhile_app_of_all l₁ l₂ (fun c hc => h c (by simp [hc]))]

/-- On input `natToChars n ++ rest` where `rest` is empty or starts with a
non-digit, the digit span is exactly the printed number. -/
theorem span_natToChars (n : Nat) (rest : List Char)
    (h : rest = [] ∨ ∃ c tail, rest = c :: tail ∧ c.isDigit = false) :
    (natToChars n ++ rest).takeWhile Char.isDigit = natToChars n ∧
      (natToChars n ++ rest).dropWhile Char.isDigit = rest := by
  have htk := takeWhile_app_of_all (natToChars n) rest (natToChars_digits n)
  have hdr := dropWhile_app_of_all (natToChars n) rest (natToChars_digits n)
  have hrest : rest.takeWhile Char.isDigit = [] ∧ rest.dropWhile Char.isDigit = rest := by
    rcases h with h | ⟨c, tail, rfl, hc⟩
    · simp [h]
    · simp [List.takeWhile_cons, List.dropWhile_cons, hc]
  exact ⟨by rw [htk, hrest.1, List.append_nil], by rw [hdr, hrest.2]⟩

end JavaVersion

namespace JavaVersion

theorem parseOptNum_nil (c : Char) : parseOptNum c [] = .ok (0, []) := rfl

theorem parseOptNum_sep (sep : Char) (n : Nat) (hn : n < 2 ^ 32) (rest : List Char)
    (h : rest = [] ∨ ∃ c tail, rest = c :: tail ∧ c.isDigit = false) :
    parseOptNum sep (sep :: (natToChars n ++ rest)) = .ok (n, rest) := by
  have hsp := span_natToChars n rest h
  simp [parseOptNum, hsp.1, hsp.2, parseU32_natToChars n hn]

/-- `parse_inner` undoes the formatting of the component list that
`Display` emits after the optional `1.` marker, for any non-digit
security separator. -/
theorem parseInner_format (major minor security : Nat) (pre : List Char) (sc : Char)
    (h32a : major < 2 ^ 32) (h32b : minor < 2 ^ 32) (h32c : security < 2 ^ 32)
    (hpre : ∀ c ∈ pre, c.isAlphanum = true)
    (hdig : sc.isDigit = false) :
    parseInner
      (natToChars major ++
        (if minor ≠ 0 ∨ security ≠ 0 ∨ pre ≠ [] then
          '.' :: natToChars minor ++
            (if security ≠ 0 ∨ pre ≠ [] then
              sc :: natToChars security ++ (if pre ≠ [] then '-' :: pre else [])
            else [])
        else [])) sc = .ok ⟨major, minor, security, pre⟩ := by
  by_cases h1 : minor ≠ 0 ∨ security ≠ 0 ∨ pre ≠ []
  case neg =>
    push_neg at h1
    obtain ⟨hm, hs, hp⟩ := h1
    subst hm hs hp
    rw [if_neg (by simp), List.append_nil]
    have hsp := span_natToChars major [] (Or.inl rfl)
    rw [List.append_nil] at hsp
    simp [parseInner, hsp.1, hsp.2, parseU32_natToChars major h32a, parseOptNum_nil, parsePre]
  case pos =>
    rw [if_pos h1]
    by_cases h2 : security ≠ 0 ∨ pre ≠ []
    case neg =>
      push_neg at h2
      obtain ⟨hs, hp⟩ := h2
      subst hs hp
      rw [if_neg (by simp), List.append_nil]
      have hsp := span_natToChars major ('.' :: natToChars minor)
        (Or.inr ⟨'.', _, rfl, by decide⟩)
      have hopt1 : parseOptNum '.' ('.' :: natToChars minor) = .ok (minor, []) := by
        have := parseOptNum_sep '.' minor h32b [] (Or.inl rfl)
        rwa [List.append_nil] at this
      simp [parseInner, hsp.1, hsp.2, parseU32_natToChars major h32a, hopt1,
        parseOptNum_nil, parsePre]
    case pos =>
      rw [if_pos h2]
      by_cases h3 : pre ≠ []
      case neg =>
        push_neg at h3
        subst h3
        rw [if_neg (by simp), List.append_nil]
        have hsp := span_natToChars major ('.' :: (natToChars minor ++ sc :: natToChars security))
          (Or.inr ⟨'.', _, rfl, by decide⟩)
        have hopt1 : parseOptNum '.' ('.' :: (natToChars minor ++ sc :: natToChars security)) =
            .ok (minor, sc :: natToChars security) := by
          exact parseOptNum_sep '.' minor h32b (sc :: natToChars security)
            (Or.inr ⟨sc, _, rfl, hdig⟩)
        have hopt2 : parseOptNum sc (sc :: natToChars security) = .ok (security, []) := by
          have := parseOptNum_sep sc security h32c [] (Or.inl rfl)
          rwa [List.append_nil] at this
        simp [parseInner, hsp.1, hsp.2, parseU32_natToChars major h32a, hopt1, hopt2,
          parsePre]
      case pos =>
        rw [if_pos h3]
        have hsp := span_natToChars major
          ('.' :: (natToChars minor ++ sc :: (natToChars security ++ '-' :: pre)))
          (Or.inr ⟨'.', _, rfl, by decide⟩)
        have hopt1 : parseOptNum '.'
            ('.' :: (natToChars minor ++ sc :: (natToChars security ++ '-' :: pre))) =
            .ok (minor, sc :: (natToChars security ++ '-' :: pre)) :=
          parseOptNum_sep '.' minor h32b (sc :: (natToChars security ++ '-' :: pre))
            (Or.inr ⟨sc, _, rfl, hdig⟩)
        have hopt2 : parseOptNum sc (sc :: (natToChars security ++ '-' :: pre)) =
            .ok (security, '-' :: pre) :=
          parseOptNum_sep sc security h32c ('-' :: pre) (Or.inr ⟨'-', _, rfl, by decide⟩)
        have hpre1 : pre.takeWhile Char.isAlphanum = pre := by
          have := takeWhile_app_of_all pre [] hpre
          simpa using this
        have hpre2 : pre.dropWhile Char.isAlphanum = [] := by
          have := dropWhile_app_of_all pre [] hpre
          simpa using this
        simp [parseInner, hsp.1, hsp.2, parseU32_natToChars major h32a, hopt1, hopt2,
          parsePre, hpre1, hpre2]

end JavaVersion

namespace JavaVersion

/-- The output of `Display` for a modern version (major at least 9) never
starts with the legacy `1.` marker. -/
theorem modern_no_legacy_marker (major : Nat) (h9 : 9 ≤ major) (tail : List Char) :
    (natToChars major ++ tail).take 2 ≠ ['1', '.'] := by
  intro hcontra
  cases hntc : natToChars major with
  | nil => exact natToChars_ne_nil major hntc
  | cons c cs =>
    cases cs with
    | nil =>
      rw [hntc] at hcontra
      have hc1 : c = '1' := by
        simp only [List.cons_append, List.nil_append, List.take_succ_cons] at hcontra
        exact (List.cons_eq_cons.mp hcontra).1
      have := digitsVal_natToChars major
      rw [hntc, hc1] at this
      have hval : digitsVal ['1'] = 1 := by decide
      omega
    | cons c2 cs2 =>
      rw [hntc] at hcontra
      have hc2 : c2 = '.' := by
        simp only [List.cons_append, List.take_succ_cons, List.take_zero,
          List.cons.injEq, and_true] at hcontra
        exact hcontra.2
      have hdig : c2.isDigit = true :=
        natToChars_digits major c2 (by rw [hntc]; simp)
      rw [hc2] at hdig
      exact absurd hdig (by decide)

/-- The bounds under which the Rust `ParsedJavaVersion` is representable:
numeric fields fit in a `u32` and the prerelease consists of ASCII
alphanumeric characters (the only ones `parse` can produce there). -/
def ValidVersion (v : ParsedJavaVersion) : Prop :=
  v.major < 2 ^ 32 ∧ v.minor < 2 ^ 32 ∧ v.security < 2 ^ 32 ∧
    ∀ c ∈ v.prerelease, c.isAlphanum = true

/-- Parsing inverts formatting: `ParsedJavaVersion::parse` applied to the
`Display` output returns the original version. -/
theorem parse_format (v : ParsedJavaVersion) (h : ValidVersion v) :
    parse (format v) = .ok v := by
  obtain ⟨major, minor, security, pre⟩ := v
  obtain ⟨h32a, h32b, h32c, hpre⟩ := h
  by_cases hold : major ≤ 8
  · have hfmt : format ⟨major, minor, security, pre⟩ =
        '1' :: '.' :: (natToChars major ++
          (if minor ≠ 0 ∨ security ≠ 0 ∨ pre ≠ [] then
            '.' :: natToChars minor ++
              (if security ≠ 0 ∨ pre ≠ [] then
                '_' :: natToChars security ++ (if pre ≠ [] then '-' :: pre else [])
              else [])
          else [])) := by
      simp [format, hold]
    rw [hfmt, parse]
    rw [if_pos (by simp)]
    simpa using parseInner_format major minor security pre '_' h32a h32b h32c hpre (by decide)
  · have hfmt : format ⟨major, minor, security, pre⟩ =
        natToChars major ++
          (if minor ≠ 0 ∨ security ≠ 0 ∨ pre ≠ [] then
            '.' :: natToChars minor ++
              (if security ≠ 0 ∨ pre ≠ [] then
                '.' :: natToChars security ++ (if pre ≠ [] then '-' :: pre else [])
              else [])
          else []) := by
      simp [format, hold]
    rw [hfmt, parse]
    rw [if_neg (modern_no_legacy_marker major (by omega) _)]
    exact parseInner_format major minor security pre '.' h32a h32b h32c hpre (by decide)

end JavaVersion

namespace JavaVersion

theorem natToChars_lt10 (n : Nat) (h : n < 10) : natToChars n = [decDigitChar n] := by
  rw [natToChars, if_pos h]

theorem natToChars_ge10 (n : Nat) (h : ¬n < 10) :
    natToChars n = natToChars (n / 10) ++ [decDigitChar (n % 10)] := by
  rw [natToChars, if_neg h]

theorem natToChars_0 : natToChars 0 = ['0'] := by
  rw [natToChars_lt10 0 (by norm_num)]; decide

theorem natToChars_8 : natToChars 8 = ['8'] := by
  rw [natToChars_lt10 8 (by norm_num)]; decide

theorem natToChars_372 : natToChars 372 = ['3', '7', '2'] := by
  rw [natToChars_ge10 372 (by norm_num)]
  norm_num
  rw [natToChars_ge10 37 (by norm_num)]
  norm_num
  rw [natToChars_lt10 3 (by norm_num)]
  decide

theorem natToChars_17 : natToChars 17 = ['1', '7'] := by
  rw [natToChars_ge10 17 (by norm_num)]
  norm_num
  rw [natToChars_lt10 1 (by norm_num)]
  decide

theorem natToChars_2 : natToChars 2 = ['2'] := by
  rw [natToChars_lt10 2 (by norm_num)]; decide

/-- A string is canonical when it is exactly what `Display` prints for
some representable version. -/
def Canonical (s : List Char) : Prop := ∃ v, ValidVersion v ∧ format v = s

/-- C7: for every canonical Java version string — the legacy form chosen
by `Display` exactly when the major is at most 8, with trailing zero
components elided — parsing and re-formatting reproduces the string
exactly. -/
theorem java_version_display_roundtrip (s : List Char) (h : Canonical s) :
    ∃ v, parse s = .ok v ∧ format v = s := by
  obtain ⟨v, hv, rfl⟩ := h
  exact ⟨v, parse_format v hv, rfl⟩

/-- Witness for `java_version_display_roundtrip`: the legacy string
`1.8.0_372` and the modern string `17.0.2` are canonical and round-trip. -/
theorem java_version_display_roundtrip_witness :
    (Canonical "1.8.0_372".toList ∧
      ∃ v, parse "1.8.0_372".toList = .ok v ∧ format v = "1.8.0_372".toList) ∧
    (Canonical "17.0.2".toList ∧
      ∃ v, parse "17.0.2".toList = .ok v ∧ format v = "17.0.2".toList) := by
  have hfmt1 : format ⟨8, 0, 372, []⟩ = "1.8.0_372".toList := by
    simp [format, natToChars_8, natToChars_0, natToChars_372]
  have hfmt2 : format ⟨17, 0, 2, []⟩ = "17.0.2".toList := by
    simp [format, natToChars_17, natToChars_0, natToChars_2]
  have hc1 : Canonical "1.8.0_372".toList :=
    ⟨⟨8, 0, 372, []⟩, ⟨by norm_num, by norm_num, by norm_num, by simp⟩, hfmt1⟩
  have hc2 : Canonical "17.0.2".toList :=
    ⟨⟨17, 0, 2, []⟩, ⟨by norm_num, by norm_num, by norm_num, by simp⟩, hfmt2⟩
  exact ⟨⟨hc1, java_version_display_roundtrip _ hc1⟩,
    ⟨hc2, java_version_display_roundtrip _ hc2⟩⟩

end JavaVersion

namespace JavaSelect

open JavaVersion

/-- `JavaCandidate` from `src/java.rs`: a discovered executable path plus
its parsed version. -/
structure JavaCandidate where
  path : String
  version : ParsedJavaVersion
deriving DecidableEq

/-- The comparator passed to `java_candidates.sort_by` in
`make_new_instance` (`src/commands/new.rs`): candidates below the
required major ("old") sort after the rest (`false < true` on the
booleans), then major ascending, then full version descending. -/
def candidateCompare (required : Nat) (c1 c2 : JavaCandidate) : Ordering :=
  let c1old := decide (c1.version.major < required)
  let c2old := decide (c2.version.major < required)
  let cmp := compare c1old c2old
  if cmp ≠ .eq then cmp
  else
    let cmp2 := compare c1.version.major c2.version.major
    if cmp2 ≠ .eq then cmp2
    else versionCompare c2.version c1.version

/-- `Vec::sort_by` with `candidateCompare`, modelled by a stable sort (a
list is sorted when no adjacent pair compares `Greater`). -/
def sortJavaCandidates (required : Nat) (l : List JavaCandidate) : List JavaCandidate :=
  List.insertionSort (fun a b => candidateCompare required a b ≠ .gt) l

/-- Candidates of majors 17, 11, 8 and 7 used by the selection-policy
scenario (required major 11, compatibility filter skipped). -/
def cand17a : JavaCandidate := ⟨"/jdk-17.0.2/bin/java", ⟨17, 0, 2, []⟩⟩

def cand17b : JavaCandidate := ⟨"/jdk-17.0.1/bin/java", ⟨17, 0, 1, []⟩⟩

def cand11a : JavaCandidate := ⟨"/jdk-11.0.4/bin/java", ⟨11, 0, 4, []⟩⟩

def cand11b : JavaCandidate := ⟨"/jdk-11.0.2/bin/java", ⟨11, 0, 2, []⟩⟩

def cand8 : JavaCandidate := ⟨"/jre1.8.0_372/bin/java", ⟨8, 0, 372, []⟩⟩

def cand7 : JavaCandidate := ⟨"/jre1.7.0_80/bin/java", ⟨7, 0, 80, []⟩⟩

/-- The unsorted candidate list of the scenario. -/
def selectionScenario : List JavaCandidate :=
  [cand8, cand17b, cand11a, cand7, cand17a, cand11b]

/-- C5 counterexample: with required major 11 and candidates of majors
17, 11, 8, 7, the comparator of `make_new_instance` does *not* put the
major-17 candidates first and does *not* put major 8 before major 7; the
computed order starts with the major-11 group and ends with 7 then 8. -/
theorem java_selection_order_counterexample :
    sortJavaCandidates 11 selectionScenario =
      [cand11a, cand11b, cand17a, cand17b, cand7, cand8] ∧
    sortJavaCandidates 11 selectionScenario ≠
      [cand17a, cand17b, cand11a, cand11b, cand8, cand7] := by decide

/-- C5 (amended): in the scenario with required major 11 and majors
17, 11, 8, 7, the sorted order places the major-11 candidates first
(each major group ordered by full version descending), then the
major-17 candidates, then 7, then 8 — compatible candidates sort before
incompatible ones and, within each class, major ascending then full
version descending. -/
theorem java_selection_order :
    sortJavaCandidates 11 selectionScenario =
      [cand11a, cand11b, cand17a, cand17b, cand7, cand8] := by decide

end JavaSelect

namespace Acquisition

/-- Byte strings (file contents, HTTP bodies, digests). -/
abbrev Bytes := List Nat

/-- The two on-disk files a conditional fetch touches: the cache file and
its `.etag` sidecar. `none` models an absent file. -/
structure EtagState where
  file : Option Bytes
  etag : Option Bytes
deriving DecidableEq

/-- An HTTP response as far as `download_with_etag` observes it: the
status code, the `ETag` header, and the already-read body. -/
structure Response where
  status : Nat
  etagHeader : Option Bytes
  body : Bytes
deriving DecidableEq

/-- reqwest's `StatusCode::is_success` (the 2xx range). -/
def statusIsSuccess (s : Nat) : Bool := 200 ≤ s && s < 300

/-- The observable I/O actions of one `download_with_etag` call, in
program order. -/
inductive Event where
  | send (ifNoneMatch : Option Bytes)
  | writeEtag (content : Bytes)
  | writeFile (content : Bytes)
deriving DecidableEq

/-- The on-disk writes of a trace, keeping their order. -/
def writeEvents (tr : List Event) : List Event :=
  tr.filter fun e =>
    match e with
    | .send _ => false
    | _ => true

/-- Replay one event against the two files. -/
def applyEvent (s : EtagState) : Event → EtagState
  | .send _ => s
  | .writeEtag b => { s with etag := some b }
  | .writeFile b => { s with file := some b }

/-- Replay a trace against the two files. -/
def applyEvents (s : EtagState) (l : List Event) : EtagState := l.foldl applyEvent s

/-- How a `download_with_etag` call can fail. -/
inductive DlError where
  | network
  | httpStatus (code : Nat)
  | deserialize
deriving DecidableEq

/-- The write path shared (verbatim) by the tail of both copies of
`download_with_etag` (`src/ioutil.rs:137-151` and `src/main.rs:196-210`):
write an empty sidecar, write the body file, deserialize, and only then
persist the response's `ETag` header value when present. -/
def etagWritePath {α : Type} (des : Bytes → Except Unit α) (resp : Response)
    (inm : Option Bytes) :
    List Event × EtagState × Except DlError α :=
  let s2 : EtagState := { file := some resp.body, etag := some [] }
  match des resp.body with
  | .error _ =>
    ([.send inm, .writeEtag [], .writeFile resp.body], s2, .error .deserialize)
  | .ok v =>
    match resp.etagHeader with
    | some e =>
      ([.send inm, .writeEtag [], .writeFile resp.body, .writeEtag e],
        { s2 with etag := some e }, .ok v)
    | none => ([.send inm, .writeEtag [], .writeFile resp.body], s2, .ok v)

/-- `download_with_etag` from `src/ioutil.rs`: send a conditional GET
(the stored sidecar as `If-None-Match`); on `304` return the deserialized
cache file — falling through to the write path when the cache file is
missing; on any other non-success status fail hard naming the status; on
success take the write path. The filesystem is the explicit `EtagState`,
the network an oracle from the sent header to a response. -/
def downloadWithEtag {α : Type} (des : Bytes → Except Unit α)
    (net : Option Bytes → Except Unit Response) (s : EtagState) :
    List Event × EtagState × Except DlError α :=
  let inm := s.etag
  match net inm with
  | .error _ => ([.send inm], s, .error .network)
  | .ok resp =>
    if resp.status = 304 then
      match s.file with
      | some cached =>
        ([.send inm], s, (des cached).mapError fun _ => DlError.deserialize)
      | none => etagWritePath des resp inm
    else if statusIsSuccess resp.status then etagWritePath des resp inm
    else ([.send inm], s, .error (.httpStatus resp.status))

/-- The older crate-root copy of `download_with_etag` in `src/main.rs`
(the five-argument variant that `install_fabric` calls): identical except
that it performs *no* status check — any non-`304` response, success or
not, takes the write path. -/
def crateDownloadWithEtag {α : Type} (des : Bytes → Except Unit α)
    (net : Option Bytes → Except Unit Response) (s : EtagState) :
    List Event × EtagState × Except DlError α :=
  let inm := s.etag
  match net inm with
  | .error _ => ([.send inm], s, .error .network)
  | .ok resp =>
    if resp.status = 304 then
      match s.file with
      | some cached =>
        ([.send inm], s, (des cached).mapError fun _ => DlError.deserialize)
      | none => etagWritePath des resp inm
    else etagWritePath des resp inm

/-- `IgnoreDeserializer`: accepts any body. -/
def ignoreDes : Bytes → Except Unit Unit := fun _ => .ok ()

end Acquisition

namespace Acquisition

/-- C1 counterexample: the crate-root `download_with_etag` of
`src/main.rs` — the variant `install_fabric` uses for its three fetches —
treats a `404` like a success: with `IgnoreDeserializer` (the
server-launch-jar fetch) it writes the sidecar and the cache file and
returns `Ok`, not a hard error. -/
theorem etag_non_success_counterexample :
    crateDownloadWithEtag ignoreDes (fun _ => .ok ⟨404, none, [60]⟩) ⟨none, none⟩ =
      ([.send none, .writeEtag [], .writeFile [60]],
        ⟨some [60], some []⟩, .ok ()) := rfl

/-- C1 (amended): the `src/ioutil.rs` `download_with_etag` fails hard on
a non-success, non-304 status, naming the status code, with no write and
no value returned; the `src/main.rs` five-argument variant — the one the
Fabric loader calls — has no such check and instead persists the
response body to the cache file. -/
theorem etag_non_success_hard_error {α : Type} (des : Bytes → Except Unit α)
    (net : Option Bytes → Except Unit Response) (s : EtagState) (resp : Response)
    (hnet : net s.etag = .ok resp) (h304 : resp.status ≠ 304)
    (hfail : statusIsSuccess resp.status = false) :
    downloadWithEtag des net s = ([.send s.etag], s, .error (.httpStatus resp.status)) ∧
    (crateDownloadWithEtag des net s).2.1.file = some resp.body := by
  constructor
  · simp only [downloadWithEtag, hnet]
    rw [if_neg h304, if_neg (by simp [hfail])]
  · simp only [crateDownloadWithEtag, hnet]
    rw [if_neg h304]
    rcases hdes : des resp.body with _ | v
    · simp [etagWritePath, hdes]
    · rcases hhdr : resp.etagHeader with _ | e <;> simp [etagWritePath, hdes, hhdr]

/-- Witness for `etag_non_success_hard_error` at a concrete `500`. -/
theorem etag_non_success_hard_error_witness :
    downloadWithEtag ignoreDes (fun _ => .ok ⟨500, none, [1]⟩) ⟨none, none⟩ =
      ([.send none], ⟨none, none⟩, .error (.httpStatus 500)) ∧
    (crateDownloadWithEtag ignoreDes (fun _ => .ok ⟨500, none, [1]⟩)
      ⟨none, none⟩).2.1.file = some [1] :=
  etag_non_success_hard_error ignoreDes (fun _ => .ok ⟨500, none, [1]⟩)
    ⟨none, none⟩ ⟨500, none, [1]⟩ rfl (by decide) (by decide)

/-- C2 counterexample: a `304` received while the cache file is missing
does *not* return cached content without writes — the code falls through
to the write path, writing the empty sidecar and then the (empty) `304`
body into the cache file. -/
theorem etag_304_missing_cache_counterexample :
    downloadWithEtag ignoreDes (fun _ => .ok ⟨304, none, []⟩) ⟨none, some [65]⟩ =
      ([.send (some [65]), .writeEtag [], .writeFile []],
        ⟨some [], some []⟩, .ok ()) ∧
    writeEvents (downloadWithEtag ignoreDes (fun _ => .ok ⟨304, none, []⟩)
      ⟨none, some [65]⟩).1 ≠ [] := ⟨rfl, by decide⟩

/-- C2 (amended): on a `304` response with the cache file present,
`download_with_etag` returns the deserialized cache file content and
performs no write (the state is returned unchanged); when the cache file
is missing, the call instead falls through to the write path, persisting
the `304` response's body. -/
theorem etag_304_returns_cache {α : Type} (des : Bytes → Except Unit α)
    (net : Option Bytes → Except Unit Response) (s : EtagState) (resp : Response)
    (hnet : net s.etag = .ok resp) (h304 : resp.status = 304) :
    (∀ cached, s.file = some cached →
      downloadWithEtag des net s =
        ([.send s.etag], s, (des cached).mapError fun _ => DlError.deserialize)) ∧
    (s.file = none →
      (downloadWithEtag des net s).2.1.file = some resp.body ∧
        writeEvents (downloadWithEtag des net s).1 ≠ []) := by
  constructor
  · intro cached hfile
    simp only [downloadWithEtag, hnet]
    rw [if_pos h304, hfile]
  · intro hfile
    simp only [downloadWithEtag, hnet]
    rw [if_pos h304, hfile]
    rcases hdes : des resp.body with _ | v
    · simp [etagWritePath, hdes, writeEvents]
    · rcases hhdr : resp.etagHeader with _ | e <;>
        simp [etagWritePath, hdes, hhdr, writeEvents]

/-- Witness for `etag_304_returns_cache`, applied once with the cache
file present and once with it absent. -/
theorem etag_304_returns_cache_witness :
    downloadWithEtag ignoreDes (fun _ => .ok ⟨304, none, []⟩) ⟨some [7], some [65]⟩ =
      ([.send (some [65])], ⟨some [7], some [65]⟩, .ok ()) ∧
    (downloadWithEtag ignoreDes (fun _ => .ok ⟨304, none, [9]⟩)
      ⟨none, some [65]⟩).2.1.file = some [9] := by
  have h1 := (etag_304_returns_cache ignoreDes (fun _ => .ok ⟨304, none, []⟩)
    ⟨some [7], some [65]⟩ ⟨304, none, []⟩ rfl rfl).1 [7] rfl
  have h2 := (etag_304_returns_cache ignoreDes (fun _ => .ok ⟨304, none, [9]⟩)
    ⟨none, some [65]⟩ ⟨304, none, [9]⟩ rfl rfl).2 rfl
  exact ⟨h1, h2.1⟩

end Acquisition

namespace Acquisition

/-- The write path of `download_with_etag` always emits the empty
sidecar write first, then the body write, then at most one sidecar write
of the response's real ETag; after each step of the write sequence the
sidecar is either empty or the body file already holds the fresh body. -/
theorem etagWritePath_writes {α : Type} (des : Bytes → Except Unit α)
    (resp : Response) (inm : Option Bytes) (s : EtagState) :
    ∃ rest,
      writeEvents (etagWritePath des resp inm).1 =
        .writeEtag [] :: .writeFile resp.body :: rest ∧
      (rest = [] ∨ ∃ e, resp.etagHeader = some e ∧ rest = [.writeEtag e]) ∧
      ∀ n, 0 < n →
        (applyEvents s ((writeEvents (etagWritePath des resp inm).1).take n)).etag =
          some [] ∨
        (applyEvents s ((writeEvents (etagWritePath des resp inm).1).take n)).file =
          some resp.body := by
  rcases hdes : des resp.body with _ | v
  · have hw : writeEvents (etagWritePath des resp inm).1 =
        [.writeEtag [], .writeFile resp.body] := by
      simp [etagWritePath, hdes, writeEvents]
    refine ⟨[], by rw [hw], Or.inl rfl, ?_⟩
    intro n hn
    rw [hw]
    obtain _ | n := n
    · omega
    obtain _ | n := n
    · left
      simp [applyEvents, applyEvent]
    · right
      rw [List.take_of_length_le (by simp)]
      simp [applyEvents, applyEvent]
  · rcases hhdr : resp.etagHeader with _ | e
    · have hw : writeEvents (etagWritePath des resp inm).1 =
          [.writeEtag [], .writeFile resp.body] := by
        simp [etagWritePath, hdes, hhdr, writeEvents]
      refine ⟨[], by rw [hw], Or.inl rfl, ?_⟩
      intro n hn
      rw [hw]
      obtain _ | n := n
      · omega
      obtain _ | n := n
      · left
        simp [applyEvents, applyEvent]
      · right
        rw [List.take_of_length_le (by simp)]
        simp [applyEvents, applyEvent]
    · have hw : writeEvents (etagWritePath des resp inm).1 =
          [.writeEtag [], .writeFile resp.body, .writeEtag e] := by
        simp [etagWritePath, hdes, hhdr, writeEvents]
      refine ⟨[.writeEtag e], by rw [hw], Or.inr ⟨e, rfl, rfl⟩, ?_⟩
      intro n hn
      rw [hw]
      obtain _ | n := n
      · omega
      obtain _ | n := n
      · left
        simp [applyEvents, applyEvent]
      obtain _ | n := n
      · right
        simp [applyEvents, applyEvent]
      · right
        rw [List.take_of_length_le (by simp)]
        simp [applyEvents, applyEvent]

/-- C3: in every run of `download_with_etag` that fetches a new body (no
`304` short-circuit), the writes happen in order: empty sidecar first,
then the body file, and only then — when the response carries an ETag and
the body was persisted and deserialized — the real ETag value; after
every step of the write sequence the sidecar is empty or the body file
already holds the fresh body, so the sidecar never claims freshness for
missing or stale content. -/
theorem etag_write_ordering {α : Type} (des : Bytes → Except Unit α)
    (net : Option Bytes → Except Unit Response) (s : EtagState) (resp : Response)
    (hnet : net s.etag = .ok resp)
    (hnew : (resp.status = 304 ∧ s.file = none) ∨
      (resp.status ≠ 304 ∧ statusIsSuccess resp.status = true)) :
    ∃ rest,
      writeEvents (downloadWithEtag des net s).1 =
        .writeEtag [] :: .writeFile resp.body :: rest ∧
      (rest = [] ∨ ∃ e, resp.etagHeader = some e ∧ rest = [.writeEtag e]) ∧
      ∀ n, 0 < n →
        (applyEvents s ((writeEvents (downloadWithEtag des net s).1).take n)).etag =
          some [] ∨
        (applyEvents s ((writeEvents (downloadWithEtag des net s).1).take n)).file =
          some resp.body := by
  have hred : downloadWithEtag des net s = etagWritePath des resp s.etag := by
    rcases hnew with ⟨h304, hfile⟩ | ⟨h304, hsucc⟩
    · simp only [downloadWithEtag, hnet]
      rw [if_pos h304, hfile]
    · simp only [downloadWithEtag, hnet]
      rw [if_neg h304, if_pos (by simp [hsucc])]
  rw [hred]
  exact etagWritePath_writes des resp s.etag s

/-- Witness for `etag_write_ordering`: a fresh `200` fetch whose response
carries an ETag, run against a stale cache. -/
theorem etag_write_ordering_witness :
    ∃ rest,
      writeEvents ((downloadWithEtag (fun b => .ok b)
        (fun _ => .ok ⟨200, some [69], [5]⟩) ⟨some [1], some [2]⟩).1) =
        .writeEtag [] :: .writeFile [5] :: rest ∧
      (rest = [] ∨ ∃ e, (some [69] : Option Bytes) = some e ∧ rest = [.writeEtag e]) ∧
      ∀ n, 0 < n →
        (applyEvents ⟨some [1], some [2]⟩
          ((writeEvents ((downloadWithEtag (fun b => .ok b)
            (fun _ => .ok ⟨200, some [69], [5]⟩) ⟨some [1], some [2]⟩).1)).take n)).etag =
          some [] ∨
        (applyEvents ⟨some [1], some [2]⟩
          ((writeEvents ((downloadWithEtag (fun b => .ok b)
            (fun _ => .ok ⟨200, some [69], [5]⟩) ⟨some [1], some [2]⟩).1)).take n)).file =
          some [5] :=
  etag_write_ordering (fun b => .ok b) (fun _ => .ok ⟨200, some [69], [5]⟩)
    ⟨some [1], some [2]⟩ ⟨200, some [69], [5]⟩ rfl (Or.inr ⟨by decide, by decide⟩)

end Acquisition

namespace Acquisition

/-- Network behavior of one `download_large` call: the `send` either
fails outright, or streams `chunks` to completion, `midStreamError`
marking a read error after the listed chunks were delivered. -/
inductive LargeNet where
  | sendError
  | stream (chunks : List Bytes) (midStreamError : Bool)

/-- The observable I/O actions of `download_large`, in program order. -/
inductive LEvent where
  | truncate
  | send
  | writeChunk (b : Bytes)
deriving DecidableEq

/-- Concatenation of the delivered chunks — the bytes the loop has
written to the file. -/
def joinBytes (chunks : List Bytes) : Bytes := chunks.foldl (fun acc c => acc ++ c) []

/-- `download_large` from `src/ioutil.rs`: the target file is opened with
`create(true).truncate(true)` *before* the request is sent; then each
chunk read from the response is appended; a send failure or mid-stream
read failure aborts with the bytes written so far left in place. The
file is the explicit `Option Bytes`, the progress callbacks have no
observable effect and are omitted. -/
def downloadLarge (net : LargeNet) (_f : Option Bytes) :
    List LEvent × Option Bytes × Except Unit Unit :=
  match net with
  | .sendError => ([.truncate, .send], some [], .error ())
  | .stream chunks mid =>
    ([.truncate, .send] ++ chunks.map LEvent.writeChunk, some (joinBytes chunks),
      if mid then .error () else .ok ())

/-- How `download_large_with_hash` can fail. -/
inductive LargeError where
  | network
  | hashMismatch
deriving DecidableEq

/-- `download_large_with_hash` from `src/ioutil.rs`: if a file exists at
the target and its digest matches, return at once (no I/O at all);
otherwise run `download_large`, then re-hash the written file and fail
with a hash mismatch — with no retry — if it differs from the expected
digest. The digest function stands for the chosen algorithm's hash. -/
def downloadLargeWithHash (hashFn : Bytes → Bytes) (expected : Bytes)
    (net : LargeNet) (f : Option Bytes) :
    List LEvent × Option Bytes × Except LargeError Unit :=
  let fresh :=
    match downloadLarge net f with
    | (tr, f', .error _) => (tr, f', .error LargeError.network)
    | (tr, f', .ok _) =>
      match f' with
      | none => (tr, f', .error LargeError.network)
      | some written =>
        if hashFn written = expected then (tr, f', .ok ())
        else (tr, f', .error LargeError.hashMismatch)
  match f with
  | some existing => if hashFn existing = expected then ([], f, .ok ()) else fresh
  | none => fresh

/-- C4: a pre-existing target whose digest matches the expected hash
short-circuits with no network request and no write; a missing or
mismatching target triggers exactly one download, and when the freshly
downloaded bytes still mismatch the call fails with a hash-mismatch
error with no retry (still exactly one request). -/
theorem download_large_with_hash_spec (hashFn : Bytes → Bytes) (expected : Bytes)
    (net : LargeNet) (f : Option Bytes) :
    (∀ c, f = some c → hashFn c = expected →
      downloadLargeWithHash hashFn expected net f = ([], f, .ok ())) ∧
    ((f = none ∨ ∃ c, f = some c ∧ hashFn c ≠ expected) →
      (downloadLargeWithHash hashFn expected net f).1.count LEvent.send = 1 ∧
      ∀ chunks, net = .stream chunks false → hashFn (joinBytes chunks) ≠ expected →
        (downloadLargeWithHash hashFn expected net f).2.2 =
          .error LargeError.hashMismatch) := by
  constructor
  · intro c hf hh
    subst hf
    simp [downloadLargeWithHash, hh]
  · intro hmiss
    have hfresh : downloadLargeWithHash hashFn expected net f =
        match downloadLarge net f with
        | (tr, f', .error _) => (tr, f', .error LargeError.network)
        | (tr, f', .ok _) =>
          match f' with
          | none => (tr, f', .error LargeError.network)
          | some written =>
            if hashFn written = expected then (tr, f', .ok ())
            else (tr, f', .error LargeError.hashMismatch) := by
      rcases hmiss with hf | ⟨c, hf, hne⟩ <;> subst hf <;>
        simp [downloadLargeWithHash]
      exact fun h => absurd h hne
    constructor
    · rw [hfresh]
      have hcount : ∀ chunks : List Bytes,
          List.count LEvent.send
            (LEvent.truncate :: LEvent.send :: List.map LEvent.writeChunk chunks) = 1 := by
        intro chunks
        have hnot : LEvent.send ∉ List.map LEvent.writeChunk chunks := by simp
        simp [List.count_cons, List.count_eq_zero.mpr hnot]
      cases net with
      | sendError => simp [downloadLarge]
      | stream chunks mid =>
        cases mid
        · simp only [downloadLarge, if_false, Bool.false_eq_true, ite_false]
          split <;> simpa using hcount chunks
        · simp only [downloadLarge, if_true]
          simpa using hcount chunks
    · intro chunks hnetEq hmismatch
      subst hnetEq
      rw [hfresh]
      simp [downloadLarge, hmismatch]

end Acquisition

namespace Acquisition

/-- Witness for `download_large_with_hash_spec`: with the identity digest,
a matching pre-existing file short-circuits; a mismatching one downloads
once and fails with a hash mismatch when the fresh bytes also mismatch. -/
theorem download_large_with_hash_spec_witness :
    downloadLargeWithHash (fun b => b) [1] (.stream [[3]] false) (some [1]) =
      ([], some [1], .ok ()) ∧
    (downloadLargeWithHash (fun b => b) [1] (.stream [[3]] false)
      (some [2])).1.count LEvent.send = 1 ∧
    (downloadLargeWithHash (fun b => b) [1] (.stream [[3]] false) (some [2])).2.2 =
      .error LargeError.hashMismatch := by
  have h1 := (download_large_with_hash_spec (fun b => b) [1]
    (.stream [[3]] false) (some [1])).1 [1] rfl rfl
  have h2 := (download_large_with_hash_spec (fun b => b) [1]
    (.stream [[3]] false) (some [2])).2 (Or.inr ⟨[2], rfl, by decide⟩)
  exact ⟨h1, h2.1, h2.2 [[3]] rfl (by decide)⟩

/-- C10: `download_large` always truncates the target (create + truncate
open) before sending the request; hence when the pre-existing target
mismatches the expected digest and the fetch then fails — at send or
mid-stream — the prior contents are already destroyed: the error path
leaves the target holding exactly the delivered bytes (empty on a send
failure), an outcome independent of the prior contents. -/
theorem download_large_error_destroys_target (hashFn : Bytes → Bytes)
    (expected : Bytes) (net : LargeNet) (f : Option Bytes) :
    (downloadLarge net f).1.take 2 = [.truncate, .send] ∧
    ∀ c, f = some c → hashFn c ≠ expected →
      (net = .sendError →
        downloadLargeWithHash hashFn expected net f =
          ([.truncate, .send], some [], .error .network)) ∧
      (∀ chunks, net = .stream chunks true →
        (downloadLargeWithHash hashFn expected net f).2.1 =
          some (joinBytes chunks) ∧
        (downloadLargeWithHash hashFn expected net f).2.2 =
          .error LargeError.network) := by
  constructor
  · cases net <;> rfl
  · intro c hf hm
    subst hf
    constructor
    · intro hnet
      subst hnet
      simp [downloadLargeWithHash, downloadLarge, hm]
    · intro chunks hnet
      subst hnet
      constructor <;> simp [downloadLargeWithHash, downloadLarge, hm]

/-- Witness for `download_large_error_destroys_target` at a send failure
and at a mid-stream failure against a mismatching target. -/
theorem download_large_error_destroys_target_witness :
    (downloadLarge .sendError (some [2])).1.take 2 = [.truncate, .send] ∧
    downloadLargeWithHash (fun b => b) [1] .sendError (some [2]) =
      ([.truncate, .send], some [], .error .network) ∧
    (downloadLargeWithHash (fun b => b) [1] (.stream [[5], [6]] true)
      (some [2])).2.1 = some (joinBytes [[5], [6]]) ∧
    (downloadLargeWithHash (fun b => b) [1] (.stream [[5], [6]] true)
      (some [2])).2.2 = .error LargeError.network := by
  have t1 := download_large_error_destroys_target (fun b => b) [1] .sendError (some [2])
  have t2 := download_large_error_destroys_target (fun b => b) [1]
    (.stream [[5], [6]] true) (some [2])
  have h2 := (t1.2 [2] rfl (by decide)).1 rfl
  have h3 := (t2.2 [2] rfl (by decide)).2 [[5], [6]] rfl
  exact ⟨t1.1, h2, h3.1, h3.2⟩

end Acquisition

namespace Log4j

/-- `13w39a` release time, `2013-09-26T15:11:19Z`, as Unix seconds
(`src/mod_loader/vanilla.rs`). -/
def TIME_13W39A : Int := 1380208279

/-- `17w15a` release time, `2017-04-12T09:30:50Z`. -/
def TIME_17W15A : Int := 1491989450

/-- `1.17-pre1` release time, `2021-05-27T09:39:21Z`. -/
def TIME_1_17_PRE1 : Int := 1622108361

/-- `1.18.1-rc3` release time, `2021-12-10T03:36:38Z`. -/
def TIME_1_18_1_RC3 : Int := 1639107398

/-- The non-Windows `LINE_ENDING` of `src/main.rs`. -/
def lineEnding : List Char := "\n".toList

/-- The flag (with its trailing space) pushed for pre-17w15a versions. -/
def flagXml17 : List Char := "-Dlog4j.configurationFile=log4j2_17-111.xml ".toList

/-- The flag pushed for pre-1.17-pre1 versions. -/
def flagXml112 : List Char := "-Dlog4j.configurationFile=log4j2_112-116.xml ".toList

/-- The flag pushed for the remaining bucket. -/
def flagNoLookups : List Char := "-Dlog4j2.formatMsgNoLookups=true ".toList

/-- `apply_vanilla_log4j_fix` from `src/mod_loader/vanilla.rs`: inside
the half-open bucket `[13w39a, 1.18.1-rc3)` it writes one of the bundled
XML configs and appends the matching flag, or appends the no-lookups
flag; outside the bucket it does nothing. Returns the bundled config
files written into the instance directory and the grown command. -/
def applyVanillaLog4jFix (releaseTime : Int) (cmd : List Char) :
    List String × List Char :=
  if TIME_13W39A ≤ releaseTime ∧ releaseTime < TIME_1_18_1_RC3 then
    if releaseTime < TIME_17W15A then
      (["log4j2_17-111.xml"], cmd ++ flagXml17)
    else if releaseTime < TIME_1_17_PRE1 then
      (["log4j2_112-116.xml"], cmd ++ flagXml112)
    else ([], cmd ++ flagNoLookups)
  else ([], cmd)

/-- The run-script command assembled by `install_vanilla`
(`src/mod_loader/vanilla.rs:28-35`): the escaped java executable and a
space, the optional mitigation, then `-jar server.jar nogui` and the
line ending. -/
def startServerCommand (escapedJavaExe : List Char) (releaseTime : Int) :
    List String × List Char :=
  let cmd := escapedJavaExe ++ " ".toList
  let (files, cmd2) := applyVanillaLog4jFix releaseTime cmd
  (files, cmd2 ++ "-jar server.jar nogui".toList ++ lineEnding)

theorem cutover_order :
    TIME_13W39A < TIME_17W15A ∧ TIME_17W15A < TIME_1_17_PRE1 ∧
      TIME_1_17_PRE1 < TIME_1_18_1_RC3 := by decide

/-- Whether `s` starts with `pat`. -/
def startsWithChars : List Char → List Char → Bool
  | [], _ => true
  | _ :: _, [] => false
  | p :: ps, c :: cs => p == c && startsWithChars ps cs

/-- Whether `pat` occurs contiguously inside `s`. -/
def containsChars (pat : List Char) : List Char → Bool
  | [] => startsWithChars pat []
  | c :: cs => startsWithChars pat (c :: cs) || containsChars pat cs

/-- C8: the Vanilla mitigation is a function of the release time alone:
inside `[13w39a, 1.18.1-rc3)` and before 17w15a the bundled
`log4j2_17-111.xml` is written and its configurationFile flag added;
before 1.17-pre1 likewise with `log4j2_112-116.xml`; otherwise inside
the bucket `-Dlog4j2.formatMsgNoLookups=true` is appended; outside the
bucket no file is written and no flag added. In particular a
2016-01-01 release yields a script containing the `log4j2_17-111.xml`
flag and a 2022-01-01 release yields the bare script without any
mitigation flag. -/
theorem vanilla_log4j_policy (esc : List Char) (t : Int) :
    (TIME_13W39A ≤ t → t < TIME_17W15A →
      startServerCommand esc t = (["log4j2_17-111.xml"],
        esc ++ " ".toList ++ flagXml17 ++ "-jar server.jar nogui".toList ++
          lineEnding)) ∧
    (TIME_17W15A ≤ t → t < TIME_1_17_PRE1 →
      startServerCommand esc t = (["log4j2_112-116.xml"],
        esc ++ " ".toList ++ flagXml112 ++ "-jar server.jar nogui".toList ++
          lineEnding)) ∧
    (TIME_1_17_PRE1 ≤ t → t < TIME_1_18_1_RC3 →
      startServerCommand esc t = ([],
        esc ++ " ".toList ++ flagNoLookups ++ "-jar server.jar nogui".toList ++
          lineEnding)) ∧
    (t < TIME_13W39A ∨ TIME_1_18_1_RC3 ≤ t →
      startServerCommand esc t = ([],
        esc ++ " ".toList ++ "-jar server.jar nogui".toList ++ lineEnding)) ∧
    (containsChars "-Dlog4j.configurationFile=log4j2_17-111.xml".toList
      (startServerCommand "java".toList 1451606400).2 = true) ∧
    ((startServerCommand "java".toList 1640995200).2 =
      "java -jar server.jar nogui\n".toList ∧
     containsChars "-Dlog4j".toList
      (startServerCommand "java".toList 1640995200).2 = false) := by
  have hc := cutover_order
  refine ⟨?_, ?_, ?_, ?_, by decide, by decide, by decide⟩
  · intro h1 h2
    simp only [startServerCommand, applyVanillaLog4jFix]
    rw [if_pos ⟨h1, by omega⟩, if_pos h2]
  · intro h1 h2
    simp only [startServerCommand, applyVanillaLog4jFix]
    rw [if_pos ⟨by omega, by omega⟩, if_neg (by omega), if_pos h2]
  · intro h1 h2
    simp only [startServerCommand, applyVanillaLog4jFix]
    rw [if_pos ⟨by omega, h2⟩, if_neg (by omega), if_neg (by omega)]
  · intro h
    simp only [startServerCommand, applyVanillaLog4jFix]
    rw [if_neg (by omega)]

/-- Witness for `vanilla_log4j_policy` at each bucket boundary. -/
theorem vanilla_log4j_policy_witness :
    startServerCommand "java".toList 1451606400 = (["log4j2_17-111.xml"],
      "java".toList ++ " ".toList ++ flagXml17 ++ "-jar server.jar nogui".toList ++
        lineEnding) ∧
    startServerCommand "java".toList 1500000000 = (["log4j2_112-116.xml"],
      "java".toList ++ " ".toList ++ flagXml112 ++ "-jar server.jar nogui".toList ++
        lineEnding) ∧
    startServerCommand "java".toList 1630000000 = ([],
      "java".toList ++ " ".toList ++ flagNoLookups ++ "-jar server.jar nogui".toList ++
        lineEnding) ∧
    startServerCommand "java".toList 1640995200 = ([],
      "java".toList ++ " ".toList ++ "-jar server.jar nogui".toList ++ lineEnding) := by
  have w1 := (vanilla_log4j_policy "java".toList 1451606400).1 (by decide) (by decide)
  have w2 := (vanilla_log4j_policy "java".toList 1500000000).2.1 (by decide) (by decide)
  have w3 := (vanilla_log4j_policy "java".toList 1630000000).2.2.1 (by decide) (by decide)
  have w4 := (vanilla_log4j_policy "java".toList 1640995200).2.2.2.1 (Or.inr (by decide))
  exact ⟨w1, w2, w3, w4⟩

end Log4j

namespace Modrinth

/-- `HashAlgorithm` from `src/hashing.rs`. -/
inductive HashAlgorithm where
  | sha1
  | sha256
  | sha512
deriving DecidableEq

/-- `HashWithAlgorithm` from `src/hashing.rs`. -/
structure HashWithAlgorithm where
  algorithm : HashAlgorithm
  hash : Acquisition.Bytes
deriving DecidableEq

/-- `ModProvider` from `src/mod_provider/mod.rs`. -/
inductive ModProvider where
  | hangar
  | modrinth
deriving DecidableEq

/-- `ModLoader` from `src/mod_loader/mod.rs`. -/
inductive ModLoader where
  | vanilla
  | fabric
  | paper
deriving DecidableEq

/-- `ModLoader::mods_folder`. -/
def ModLoader.modsFolder : ModLoader → Option String
  | .vanilla => none
  | .fabric => some "mods"
  | .paper => some "plugins"

/-- `ModMetadata` from `src/instance.rs`. -/
structure ModMetadata where
  id : String
  name : String
  file_name : String
  hash : HashWithAlgorithm
  provider : ModProvider
deriving DecidableEq

/-- `InstanceMetadata` from `src/instance.rs`. -/
structure InstanceMetadata where
  loader : ModLoader
  minecraft_version : String
  mods : List ModMetadata
deriving DecidableEq

/-- `ProjectFileHashes` from `src/mod_provider/modrinth.rs`: the
provider-declared digests of a version file. -/
structure ProjectFileHashes where
  sha1 : Option Acquisition.Bytes
  sha512 : Option Acquisition.Bytes
deriving DecidableEq

/-- The fields of `ProjectFile` that `add_mod` consults after the file
has been chosen. -/
structure ProjectFile where
  hashes : ProjectFileHashes
  filename : String
deriving DecidableEq

/-- The fields of `Project` that `add_mod` consults after resolution. -/
structure Project where
  slug : String
  id : String
deriving DecidableEq

/-- The failure modes of `add_mod` past resolution. -/
inductive AddError where
  | unsupportedLoader
  | alreadyUpToDate
  | modConflict (id name filename : String)
  | download
deriving DecidableEq

/-- The hash comparison of `add_mod` (`src/mod_provider/modrinth.rs:112-122`):
the installed mod's recorded digest against the provider-declared digest
of the same algorithm; algorithms other than SHA-1/SHA-512 never match. -/
def hashMatches (file : ProjectFile) (m : ModMetadata) : Bool :=
  match m.hash.algorithm with
  | .sha1 => some m.hash.hash == file.hashes.sha1
  | .sha512 => some m.hash.hash == file.hashes.sha512
  | _ => false

/-- `add_mod` from `src/mod_provider/modrinth.rs`, from the point where
the project and its version file are resolved (line 98 on): the loader
must support mods; an installed Modrinth mod with the project's id whose
filename and digest both match short-circuits as already-up-to-date; any
installed mod with a *different* id claiming the same filename is a
conflict; then the file is fetched (the outcome abstracted as `dl`) and
the recorded digest is the provider's SHA-512, else the provider's
SHA-1, else the SHA-512 computed from the downloaded bytes (abstracted
as `computedSha512`). -/
def addModResolved (project : Project) (file : ProjectFile)
    (meta : InstanceMetadata) (dl : Except Unit Unit)
    (computedSha512 : Acquisition.Bytes) : Except AddError ModMetadata :=
  match meta.loader.modsFolder with
  | none => .error .unsupportedLoader
  | some _ =>
    let existingMod := meta.mods.find? fun m =>
      m.provider == ModProvider.modrinth && m.id == project.id
    let upToDate :=
      match existingMod with
      | some m => m.file_name == file.filename && hashMatches file m
      | none => false
    if upToDate then .error .alreadyUpToDate
    else
      match meta.mods.find? fun m =>
          m.id != project.id && m.file_name == file.filename with
      | some m => .error (.modConflict m.id m.name m.file_name)
      | none =>
        match dl with
        | .error _ => .error .download
        | .ok _ =>
          let recorded :=
            match file.hashes with
            | ⟨_, some sha512⟩ => HashWithAlgorithm.mk .sha512 sha512
            | ⟨some sha1, none⟩ => HashWithAlgorithm.mk .sha1 sha1
            | ⟨none, none⟩ => HashWithAlgorithm.mk .sha512 computedSha512
          .ok ⟨project.id, project.slug, file.filename, recorded, .modrinth⟩

/-- The `add_mod` wrapper in `src/commands/add.rs`: only on success is
the metadata store mutated (drop any entry with the new mod's id, append
the new entry) and saved; an error propagates with no save. Returns the
saved mods list. -/
def addModCommand (project : Project) (file : ProjectFile)
    (meta : InstanceMetadata) (dl : Except Unit Unit)
    (computedSha512 : Acquisition.Bytes) : Except AddError (List ModMetadata) :=
  match addModResolved project file meta dl computedSha512 with
  | .error e => .error e
  | .ok added => .ok ((meta.mods.filter fun m => m.id != added.id) ++ [added])

end Modrinth

namespace Modrinth

/-- An installed mod of id `a` claiming `f.jar`, up-to-date with the
resolved file. -/
def modA : ModMetadata := ⟨"a", "Mod A", "f.jar", ⟨.sha512, [1]⟩, .modrinth⟩

/-- An installed mod of a different id `b` also claiming `f.jar`. -/
def modB : ModMetadata := ⟨"b", "Mod B", "f.jar", ⟨.sha512, [2]⟩, .modrinth⟩

/-- A store in which `f.jar` is claimed both by the resolved project's id
and by a different id. -/
def conflictMeta : InstanceMetadata := ⟨.fabric, "1.20.1", [modA, modB]⟩

/-- The resolved project of id `a`. -/
def projA : Project := ⟨"a", "a"⟩

/-- The resolved file `f.jar` with provider SHA-512 matching `modA`. -/
def fileF : ProjectFile := ⟨⟨none, some [1]⟩, "f.jar"⟩

/-- C9 counterexample: the store holds a mod of a *different* id with the
resolved file's filename — the claim's conflict condition — yet the call
fails with the already-up-to-date error (the same-id check at
`modrinth.rs:111-126` runs first), not with a mod-conflict error. The
store is still left unchanged. -/
theorem modrinth_conflict_counterexample :
    (∃ m ∈ conflictMeta.mods, m.id ≠ projA.id ∧ m.file_name = fileF.filename) ∧
    addModResolved projA fileF conflictMeta (.ok ()) [] = .error .alreadyUpToDate ∧
    addModCommand projA fileF conflictMeta (.ok ()) [] = .error .alreadyUpToDate :=
  ⟨by decide, rfl, rfl⟩

/-- C9 (amended): when the loader supports mods and no installed Modrinth
mod with the resolved project's id matches the resolved file by filename
and digest (so the already-up-to-date short-circuit does not fire), an
installed mod of a different id claiming the resolved file's filename
makes `add_mod` fail with the mod-conflict error naming that mod, and the
wrapper performs no store mutation or save. -/
theorem modrinth_conflict_blocks (project : Project) (file : ProjectFile)
    (meta : InstanceMetadata) (dl : Except Unit Unit)
    (computed : Acquisition.Bytes)
    (hloader : (ModLoader.modsFolder meta.loader).isSome = true)
    (hconflict : ∃ m ∈ meta.mods, m.id ≠ project.id ∧ m.file_name = file.filename)
    (hnud : ∀ m ∈ meta.mods, m.provider = .modrinth → m.id = project.id →
      ¬(m.file_name = file.filename ∧ hashMatches file m = true)) :
    ∃ m ∈ meta.mods, m.id ≠ project.id ∧ m.file_name = file.filename ∧
      addModResolved project file meta dl computed =
        .error (.modConflict m.id m.name m.file_name) ∧
      addModCommand project file meta dl computed =
        .error (.modConflict m.id m.name m.file_name) := by
  obtain ⟨folder, hfolder⟩ := Option.isSome_iff_exists.mp hloader
  have hupfalse : (match meta.mods.find? fun m =>
      m.provider == ModProvider.modrinth && m.id == project.id with
    | some m => m.file_name == file.filename && hashMatches file m
    | none => false) = false := by
    cases hfind : meta.mods.find? fun m =>
        m.provider == ModProvider.modrinth && m.id == project.id with
    | none => rfl
    | some m0 =>
      have hmem := List.mem_of_find?_eq_some hfind
      have hpred := List.find?_some hfind
      simp only [Bool.and_eq_true, beq_iff_eq] at hpred
      have hno := hnud m0 hmem hpred.1 hpred.2
      cases hval : (m0.file_name == file.filename && hashMatches file m0) with
      | false => exact hval
      | true =>
        simp only [Bool.and_eq_true, beq_iff_eq] at hval
        exact absurd ⟨hval.1, hval.2⟩ hno
  have hfc : (meta.mods.find? fun m =>
      m.id != project.id && m.file_name == file.filename).isSome = true := by
    rw [List.find?_isSome]
    obtain ⟨m, hm, hid, hfn⟩ := hconflict
    exact ⟨m, hm, by simp [hid, hfn]⟩
  obtain ⟨m', hm'⟩ := Option.isSome_iff_exists.mp hfc
  have hmem' := List.mem_of_find?_eq_some hm'
  have hpred' := List.find?_some hm'
  simp only [Bool.and_eq_true, bne_iff_ne, beq_iff_eq] at hpred'
  have hres : addModResolved project file meta dl computed =
      .error (.modConflict m'.id m'.name m'.file_name) := by
    simp only [addModResolved, hfolder]
    rw [hupfalse]
    simp only [Bool.false_eq_true, if_false, hm']
  exact ⟨m', hmem', hpred'.1, hpred'.2, hres, by simp [addModCommand, hres]⟩

/-- The conflict store without the up-to-date entry, for the witness. -/
def conflictOnlyMeta : InstanceMetadata := ⟨.fabric, "1.20.1", [modB]⟩

/-- Witness for `modrinth_conflict_blocks` on a store holding only the
different-id claimant of `f.jar`. -/
theorem modrinth_conflict_blocks_witness :
    ∃ m ∈ conflictOnlyMeta.mods, m.id ≠ projA.id ∧ m.file_name = fileF.filename ∧
      addModResolved projA fileF conflictOnlyMeta (.ok ()) [] =
        .error (.modConflict m.id m.name m.file_name) ∧
      addModCommand projA fileF conflictOnlyMeta (.ok ()) [] =
        .error (.modConflict m.id m.name m.file_name) :=
  modrinth_conflict_blocks projA fileF conflictOnlyMeta (.ok ()) []
    (by decide) (by decide) (by decide)

end Modrinth
